import Mathlib

/-!
Verification of the ltbase-ts request-signing core.

JavaScript strings are modelled as lists of unicode scalar characters
(type Str below), byte sequences (Node Buffer, ArrayBuffer) as lists of
natural numbers below 256.  Platform primitives used by the source
(Node crypto SHA-256, Buffer base64 codecs, UTF-8 coding, URLSearchParams
form encoding) are embedded as executable Lean functions; the Ed25519
signing primitive and PKCS8 key construction are abstract parameters,
since their internals are irrelevant to every property below.
-/

abbrev Str := List Char

def str (s : String) : Str := s.data

/-- Scalar value of a character (the JS code unit for BMP characters). -/
def charCode (c : Char) : Nat := c.val.toNat

/-- UTF-8 encoding of one unicode scalar value. -/
def utf8Char (n : Nat) : List Nat :=
  if n < 128 then [n]
  else if n < 2048 then [192 + n / 64, 128 + n % 64]
  else if n < 65536 then [224 + n / 4096, 128 + n / 64 % 64, 128 + n % 64]
  else [240 + n / 262144, 128 + n / 4096 % 64, 128 + n / 64 % 64, 128 + n % 64]

/-- UTF-8 encoding of a string (Buffer.from(s, "utf8")). -/
def utf8Encode : Str → List Nat
  | [] => []
  | c :: cs => utf8Char (charCode c) ++ utf8Encode cs

/-! ## SHA-256 (Node createHash("sha256")) -/

def w32 (n : Nat) : Nat := n % 4294967296

def rotr (n x : Nat) : Nat := w32 (x / 2 ^ n + x % 2 ^ n * 2 ^ (32 - n))

def shr (n x : Nat) : Nat := x / 2 ^ n

def bnot32 (x : Nat) : Nat := Nat.xor x 4294967295

def bsig0 (x : Nat) : Nat := Nat.xor (Nat.xor (rotr 2 x) (rotr 13 x)) (rotr 22 x)

def bsig1 (x : Nat) : Nat := Nat.xor (Nat.xor (rotr 6 x) (rotr 11 x)) (rotr 25 x)

def ssig0 (x : Nat) : Nat := Nat.xor (Nat.xor (rotr 7 x) (rotr 18 x)) (shr 3 x)

def ssig1 (x : Nat) : Nat := Nat.xor (Nat.xor (rotr 17 x) (rotr 19 x)) (shr 10 x)

def chF (x y z : Nat) : Nat := Nat.xor (Nat.land x y) (Nat.land (bnot32 x) z)

def majF (x y z : Nat) : Nat :=
  Nat.xor (Nat.xor (Nat.land x y) (Nat.land x z)) (Nat.land y z)

def sha256K : List Nat :=
  [1116352408, 1899447441, 3049323471, 3921009573, 961987163, 1508970993,
   2453635748, 2870763221, 3624381080, 310598401, 607225278, 1426881987,
   1925078388, 2162078206, 2614888103, 3248222580, 3835390401, 4022224774,
   264347078, 604807628, 770255983, 1249150122, 1555081692, 1996064986,
   2554220882, 2821834349, 2952996808, 3210313671, 3336571891, 3584528711,
   113926993, 338241895, 666307205, 773529912, 1294757372, 1396182291,
   1695183700, 1986661051, 2177026350, 2456956037, 2730485921, 2820302411,
   3259730800, 3345764771, 3516065817, 3600352804, 4094571909, 275423344,
   430227734, 506948616, 659060556, 883997877, 958139571, 1322822218,
   1537002063, 1747873779, 1955562222, 2024104815, 2227730452, 2361852424,
   2428436474, 2756734187, 3204031479, 3329325298]

structure Hash8 where
  a : Nat
  b : Nat
  c : Nat
  d : Nat
  e : Nat
  f : Nat
  g : Nat
  h : Nat

def sha256Init : Hash8 :=
  ⟨1779033703, 3144134277, 1013904242, 2773480762,
   1359893119, 2600822924, 528734635, 1541459225⟩

def scheduleStep (ws : List Nat) : List Nat :=
  let l := ws.length
  ws ++ [w32 (ssig1 (ws.getD (l - 2) 0) + ws.getD (l - 7) 0 +
              ssig0 (ws.getD (l - 15) 0) + ws.getD (l - 16) 0)]

def fullSchedule (ws : List Nat) : List Nat :=
  (List.range 48).foldl (fun acc _ => scheduleStep acc) ws

def sha256Round (st : Hash8) (kw : Nat × Nat) : Hash8 :=
  let t1 := w32 (st.h + bsig1 st.e + chF st.e st.f st.g + kw.1 + kw.2)
  let t2 := w32 (bsig0 st.a + majF st.a st.b st.c)
  ⟨w32 (t1 + t2), st.a, st.b, st.c, w32 (st.d + t1), st.e, st.f, st.g⟩

def processBlock (h0 : Hash8) (block : List Nat) : Hash8 :=
  let st := (sha256K.zip (fullSchedule block)).foldl sha256Round h0
  ⟨w32 (h0.a + st.a), w32 (h0.b + st.b), w32 (h0.c + st.c), w32 (h0.d + st.d),
   w32 (h0.e + st.e), w32 (h0.f + st.f), w32 (h0.g + st.g), w32 (h0.h + st.h)⟩

/-- Big-endian 8-byte encoding of the bit length. -/
def lenBytes64 (bits : Nat) : List Nat :=
  [bits / 2 ^ 56 % 256, bits / 2 ^ 48 % 256, bits / 2 ^ 40 % 256,
   bits / 2 ^ 32 % 256, bits / 2 ^ 24 % 256, bits / 2 ^ 16 % 256,
   bits / 2 ^ 8 % 256, bits % 256]

def padMessage (msg : List Nat) : List Nat :=
  let z := (119 - msg.length % 64) % 64
  msg ++ [128] ++ List.replicate z 0 ++ lenBytes64 (msg.length * 8)

def toWordsBE : List Nat → List Nat
  | b1 :: b2 :: b3 :: b4 :: r =>
      (b1 * 2 ^ 24 + b2 * 2 ^ 16 + b3 * 2 ^ 8 + b4) :: toWordsBE r
  | _ => []

def toBlocks : List Nat → List (List Nat)
  | w1 :: w2 :: w3 :: w4 :: w5 :: w6 :: w7 :: w8 ::
    w9 :: w10 :: w11 :: w12 :: w13 :: w14 :: w15 :: w16 :: r =>
      [w1, w2, w3, w4, w5, w6, w7, w8, w9, w10, w11, w12, w13, w14, w15, w16] ::
      toBlocks r
  | [] => []
  | r => [r]

def wordBytesBE (w : Nat) : List Nat :=
  [w / 2 ^ 24 % 256, w / 2 ^ 16 % 256, w / 2 ^ 8 % 256, w % 256]

/-- SHA-256 digest of a byte sequence, as 32 bytes. -/
def sha256 (msg : List Nat) : List Nat :=
  let hs := (toBlocks (toWordsBE (padMessage msg))).foldl processBlock sha256Init
  wordBytesBE hs.a ++ wordBytesBE hs.b ++ wordBytesBE hs.c ++ wordBytesBE hs.d ++
  wordBytesBE hs.e ++ wordBytesBE hs.f ++ wordBytesBE hs.g ++ wordBytesBE hs.h

def hexDigit (n : Nat) : Char := (str "0123456789abcdef").getD n 'x'

def hexOfByte (b : Nat) : Str := [hexDigit (b / 16 % 16), hexDigit (b % 16)]

def bytesToHex : List Nat → Str
  | [] => []
  | b :: r => hexOfByte b ++ bytesToHex r

/-- createHash("sha256").update(body).digest("hex") for a string body. -/
def sha256hex (s : Str) : Str := bytesToHex (sha256 (utf8Encode s))

example : sha256hex [] =
    str "e3b0c44298fc1c149afbf4c8996fb92427ae41e4649b934ca495991b7852b855" := by
  decide

example : sha256hex (str "abc") =
    str "ba7816bf8f01cfea414140de5dae2223b00361a396177a9cb410ff61f20015ad" := by
  decide

/-! ## Base64 (Node Buffer codecs) and the URL-safe wrappers from signer.ts -/

def b64Alphabet : Str :=
  str "ABCDEFGHIJKLMNOPQRSTUVWXYZabcdefghijklmnopqrstuvwxyz0123456789+/"

def stdB64Char (n : Nat) : Char := b64Alphabet.getD n '?'

def b64IndexAux : Nat → Str → Char → Option Nat
  | _, [], _ => none
  | i, a :: as, c => if a = c then some i else b64IndexAux (i + 1) as c

/-- Sextet value of a base64 alphabet character; none for any other
character (the Node base64 decoder skips those, including padding). -/
def b64IndexOf (c : Char) : Option Nat := b64IndexAux 0 b64Alphabet c

/-- Buffer.toString("base64"): standard alphabet, padded with "=". -/
def nodeBase64Encode : List Nat → Str
  | [] => []
  | [b1] => [stdB64Char (b1 / 4), stdB64Char (b1 % 4 * 16), '=', '=']
  | [b1, b2] => [stdB64Char (b1 / 4), stdB64Char (b1 % 4 * 16 + b2 / 16),
                 stdB64Char (b2 % 16 * 4), '=']
  | b1 :: b2 :: b3 :: r =>
      stdB64Char (b1 / 4) :: stdB64Char (b1 % 4 * 16 + b2 / 16) ::
      stdB64Char (b2 % 16 * 4 + b3 / 64) :: stdB64Char (b3 % 64) ::
      nodeBase64Encode r

def sextetsToBytes : List Nat → List Nat
  | s1 :: s2 :: s3 :: s4 :: r =>
      (s1 * 4 + s2 / 16) :: (s2 % 16 * 16 + s3 / 4) :: (s3 % 4 * 64 + s4) ::
      sextetsToBytes r
  | [s1, s2] => [s1 * 4 + s2 / 16]
  | [s1, s2, s3] => [s1 * 4 + s2 / 16, s2 % 16 * 16 + s3 / 4]
  | _ => []

/-- Buffer.from(s, "base64"): non-alphabet characters are skipped,
then sextets are packed back into bytes, partial groups per padding. -/
def nodeBase64Decode (s : Str) : List Nat := sextetsToBytes (s.filterMap b64IndexOf)

def swapToUrl (c : Char) : Char := if c = '+' then '-' else if c = '/' then '_' else c

def swapFromUrl (c : Char) : Char := if c = '-' then '+' else if c = '_' then '/' else c

/-- replace(/=+$/g, "") : remove the trailing run of padding characters. -/
def stripTrailingEq (s : Str) : Str := (s.reverse.dropWhile (fun c => c = '=')).reverse

/-- toBase64Url from signer.ts. -/
def toBase64Url (buffer : List Nat) : Str :=
  stripTrailingEq ((nodeBase64Encode buffer).map swapToUrl)

/-- base64UrlToBuffer from signer.ts. -/
def base64UrlToBuffer (value : Str) : List Nat :=
  let padding : Str :=
    if value.length % 4 = 0 then [] else List.replicate (4 - value.length % 4) '='
  nodeBase64Decode (value.map swapFromUrl ++ padding)

example : toBase64Url [104, 105] = str "aGk" := by decide
example : base64UrlToBuffer (str "aGk") = [104, 105] := by decide
example : toBase64Url [251, 239, 190] = str "----" := by decide

/-- Non-padding sextet stream produced by the base64 encoder (proof helper). -/
def encSextets : List Nat → List Nat
  | [] => []
  | [b1] => [b1 / 4, b1 % 4 * 16]
  | [b1, b2] => [b1 / 4, b1 % 4 * 16 + b2 / 16, b2 % 16 * 4]
  | b1 :: b2 :: b3 :: r =>
      b1 / 4 :: (b1 % 4 * 16 + b2 / 16) :: (b2 % 16 * 4 + b3 / 64) :: b3 % 64 ::
      encSextets r

theorem encSextets_lt (b : List Nat) (hb : ∀ x ∈ b, x < 256) :
    ∀ s ∈ encSextets b, s < 64 := by
  induction b using encSextets.induct with
  | case1 => intro s hs; simp [encSextets] at hs
  | case2 b1 =>
    have h1 := hb b1 (by simp)
    intro s hs
    simp [encSextets] at hs
    rcases hs with h | h <;> omega
  | case3 b1 b2 =>
    have h1 := hb b1 (by simp)
    have h2 := hb b2 (by simp)
    intro s hs
    simp [encSextets] at hs
    rcases hs with h | h | h <;> omega
  | case4 b1 b2 b3 r ih =>
    have h1 := hb b1 (by simp)
    have h2 := hb b2 (by simp)
    have h3 := hb b3 (by simp)
    intro s hs
    simp only [encSextets, List.mem_cons] at hs
    rcases hs with h | h | h | h | h
    · omega
    · omega
    · omega
    · omega
    · exact ih (fun x hx => hb x (by simp [hx])) s h

theorem sextets_to_bytes_inverse (b : List Nat) (hb : ∀ x ∈ b, x < 256) :
    sextetsToBytes (encSextets b) = b := by
  induction b using encSextets.induct with
  | case1 => rfl
  | case2 b1 =>
    have h1 := hb b1 (by simp)
    simp only [encSextets, sextetsToBytes]
    congr 1
    omega
  | case3 b1 b2 =>
    have h1 := hb b1 (by simp)
    have h2 := hb b2 (by simp)
    simp only [encSextets, sextetsToBytes]
    congr 1
    · omega
    · congr 1
      omega
  | case4 b1 b2 b3 r ih =>
    have h1 := hb b1 (by simp)
    have h2 := hb b2 (by simp)
    have h3 := hb b3 (by simp)
    simp only [encSextets, sextetsToBytes]
    rw [ih (fun x hx => hb x (by simp [hx]))]
    congr 1
    · omega
    · congr 1
      · omega
      · congr 1
        omega

theorem stdB64Char_ne_eq : ∀ s < 64, ¬ stdB64Char s = '=' ∧
    ¬ swapToUrl (stdB64Char s) = '=' := by decide

theorem strip_append (xs ys : Str) (h : ∀ c ∈ xs, ¬ c = '=') :
    stripTrailingEq (xs ++ ys) = xs ++ stripTrailingEq ys := by
  unfold stripTrailingEq
  rw [List.reverse_append, List.dropWhile_append]
  by_cases hy : (ys.reverse.dropWhile fun c => c = '=') = []
  · simp only [hy, List.isEmpty_nil]
    have hx : (xs.reverse.dropWhile fun c => c = '=') = xs.reverse := by
      apply List.dropWhile_eq_self_iff.mpr
      intro hne
      have hmem : xs.reverse.get ⟨0, hne⟩ ∈ xs := by
        rw [← List.mem_reverse]
        exact List.get_mem _ _ _
      simpa using h _ hmem
    simp [hx]
  · have : (ys.reverse.dropWhile fun c => c = '=').isEmpty = false := by
      simpa [List.isEmpty_iff] using hy
    simp [this]

theorem toBase64Url_eq (b : List Nat) (hb : ∀ x ∈ b, x < 256) :
    toBase64Url b = (encSextets b).map (fun s => swapToUrl (stdB64Char s)) := by
  induction b using encSextets.induct with
  | case1 => rfl
  | case2 b1 =>
    have h1 := hb b1 (by simp)
    unfold toBase64Url nodeBase64Encode
    have e1 := (stdB64Char_ne_eq (b1 / 4) (by omega)).2
    have e2 := (stdB64Char_ne_eq (b1 % 4 * 16) (by omega)).2
    have := strip_append [swapToUrl (stdB64Char (b1 / 4)),
        swapToUrl (stdB64Char (b1 % 4 * 16))] (str "==") (by
      intro c hc
      simp at hc
      rcases hc with rfl | rfl <;> assumption)
    simp only [List.map_cons, List.map_nil] at this ⊢
    rw [show ([swapToUrl (stdB64Char (b1 / 4)), swapToUrl (stdB64Char (b1 % 4 * 16)),
        swapToUrl '=', swapToUrl '=']) = [swapToUrl (stdB64Char (b1 / 4)),
        swapToUrl (stdB64Char (b1 % 4 * 16))] ++ str "==" by rfl]
    rw [this]
    rfl
  | case3 b1 b2 =>
    have h1 := hb b1 (by simp)
    have h2 := hb b2 (by simp)
    unfold toBase64Url nodeBase64Encode
    have e1 := (stdB64Char_ne_eq (b1 / 4) (by omega)).2
    have e2 := (stdB64Char_ne_eq (b1 % 4 * 16 + b2 / 16) (by omega)).2
    have e3 := (stdB64Char_ne_eq (b2 % 16 * 4) (by omega)).2
    have := strip_append [swapToUrl (stdB64Char (b1 / 4)),
        swapToUrl (stdB64Char (b1 % 4 * 16 + b2 / 16)),
        swapToUrl (stdB64Char (b2 % 16 * 4))] (str "=") (by
      intro c hc
      simp at hc
      rcases hc with rfl | rfl | rfl <;> assumption)
    simp only [List.map_cons, List.map_nil] at this ⊢
    rw [show ([swapToUrl (stdB64Char (b1 / 4)),
        swapToUrl (stdB64Char (b1 % 4 * 16 + b2 / 16)),
        swapToUrl (stdB64Char (b2 % 16 * 4)), swapToUrl '=']) =
        [swapToUrl (stdB64Char (b1 / 4)),
        swapToUrl (stdB64Char (b1 % 4 * 16 + b2 / 16)),
        swapToUrl (stdB64Char (b2 % 16 * 4))] ++ str "=" by rfl]
    rw [this]
    rfl
  | case4 b1 b2 b3 r ih =>
    have h1 := hb b1 (by simp)
    have h2 := hb b2 (by simp)
    have h3 := hb b3 (by simp)
    have ih2 := ih (fun x hx => hb x (by simp [hx]))
    unfold toBase64Url nodeBase64Encode
    have e1 := (stdB64Char_ne_eq (b1 / 4) (by omega)).2
    have e2 := (stdB64Char_ne_eq (b1 % 4 * 16 + b2 / 16) (by omega)).2
    have e3 := (stdB64Char_ne_eq (b2 % 16 * 4 + b3 / 64) (by omega)).2
    have e4 := (stdB64Char_ne_eq (b3 % 64) (by omega)).2
    simp only [List.map_cons]
    rw [show (swapToUrl (stdB64Char (b1 / 4)) ::
        swapToUrl (stdB64Char (b1 % 4 * 16 + b2 / 16)) ::
        swapToUrl (stdB64Char (b2 % 16 * 4 + b3 / 64)) ::
        swapToUrl (stdB64Char (b3 % 64)) :: (nodeBase64Encode r).map swapToUrl) =
        [swapToUrl (stdB64Char (b1 / 4)),
        swapToUrl (stdB64Char (b1 % 4 * 16 + b2 / 16)),
        swapToUrl (stdB64Char (b2 % 16 * 4 + b3 / 64)),
        swapToUrl (stdB64Char (b3 % 64))] ++ (nodeBase64Encode r).map swapToUrl
        by rfl]
    rw [strip_append _ _ (by
      intro c hc
      simp at hc
      rcases hc with rfl | rfl | rfl | rfl <;> assumption)]
    unfold toBase64Url at ih2
    rw [ih2]
    simp [encSextets]

theorem b64IndexOf_round : ∀ s < 64,
    b64IndexOf (swapFromUrl (swapToUrl (stdB64Char s))) = some s := by decide

theorem filterMap_replicate_pad (n : Nat) :
    (List.replicate n '=').filterMap b64IndexOf = [] := by
  induction n with
  | zero => rfl
  | succ k ih =>
    have he : b64IndexOf '=' = none := by decide
    simp only [List.replicate_succ, List.filterMap_cons, he]
    exact ih

theorem filterMap_decode (sx : List Nat) (hs : ∀ s ∈ sx, s < 64) (n : Nat) :
    (((sx.map (fun s => swapToUrl (stdB64Char s))).map swapFromUrl ++
      List.replicate n '=').filterMap b64IndexOf) = sx := by
  induction sx with
  | nil => simpa using filterMap_replicate_pad n
  | cons s rest ih =>
    simp only [List.map_cons, List.cons_append, List.filterMap_cons,
      b64IndexOf_round s (hs s (by simp))]
    rw [ih (fun x hx => hs x (by simp [hx]))]

/-- C5: base64UrlToBuffer inverts toBase64Url on every byte sequence,
including lengths whose standard base64 encoding needs 0, 1 or 2
padding characters. -/
theorem base64_url_round_trip (b : List Nat) (h : ∀ x ∈ b, x < 256) :
    base64UrlToBuffer (toBase64Url b) = b := by
  rw [toBase64Url_eq b h]
  unfold base64UrlToBuffer nodeBase64Decode
  have hs := encSextets_lt b h
  by_cases hc :
      ((encSextets b).map fun s => swapToUrl (stdB64Char s)).length % 4 = 0
  · simp only [hc, if_pos, reduceIte]
    have := filterMap_decode (encSextets b) hs 0
    simp only [List.replicate_zero, List.append_nil] at this
    rw [List.append_nil, this]
    exact sextets_to_bytes_inverse b h
  · simp only [hc, reduceIte]
    rw [filterMap_decode (encSextets b) hs _]
    exact sextets_to_bytes_inverse b h

/-- Witness for C5 at lengths 1, 2 and 3 (2, 1 and 0 padding characters). -/
theorem base64_url_round_trip_witness :
    ((∀ x ∈ [250], x < 256) ∧ base64UrlToBuffer (toBase64Url [250]) = [250]) ∧
    ((∀ x ∈ [250, 7], x < 256) ∧
      base64UrlToBuffer (toBase64Url [250, 7]) = [250, 7]) ∧
    ((∀ x ∈ [0, 255, 63], x < 256) ∧
      base64UrlToBuffer (toBase64Url [0, 255, 63]) = [0, 255, 63]) :=
  ⟨⟨by decide, base64_url_round_trip [250] (by decide)⟩,
   ⟨by decide, base64_url_round_trip [250, 7] (by decide)⟩,
   ⟨by decide, base64_url_round_trip [0, 255, 63] (by decide)⟩⟩

/-! ## Canonical signing string builder (AuthSigner.constructSigningString) -/

/-- s.endsWith(c) for a one-character suffix. -/
def endsWithChar (s : Str) (c : Char) : Bool := s.getLast? = some c

/-- toUpperCase, modelled on the ASCII range (methods are ASCII). -/
def jsToUpperChar (c : Char) : Char :=
  if 97 ≤ charCode c && charCode c ≤ 122 then Char.ofNat (charCode c - 32) else c

def toUpperStr (s : Str) : Str := s.map jsToUpperChar

/-- The while loop of constructSigningString: as long as the url ends in
a slash or question mark, drop the last character.  The loop runs at most
length-many times, made explicit by fuel. -/
def cleanUrlLoop : Nat → Str → Str
  | 0, s => s
  | fuel + 1, s =>
      if endsWithChar s '/' || endsWithChar s '?' then cleanUrlLoop fuel s.dropLast
      else s

def cleanUrl (url : Str) : Str := cleanUrlLoop url.length url

/-- timestamp.toString() for the millisecond timestamp. -/
def natStr (n : Nat) : Str := (Nat.repr n).data

/-- AuthSigner.constructSigningString from signer.ts. -/
def constructSigningString (method url queryString body : Str)
    (timestamp : Nat) (nonce : Str) : Str :=
  let trimmed := cleanUrl url
  let bodyHash := sha256hex body
  List.intercalate (str "\n")
    [toUpperStr method, trimmed, queryString, bodyHash, natStr timestamp, nonce]

example : cleanUrl (str "http://h/path//???") = str "http://h/path" := by decide
example : cleanUrl (str "https://h/p?a/") = str "https://h/p?a" := by decide

theorem hexDigit_mem : ∀ n < 16, hexDigit n ∈ str "0123456789abcdef" := by decide

theorem bytesToHex_mem (bs : List Nat) :
    ∀ c ∈ bytesToHex bs, c ∈ str "0123456789abcdef" := by
  induction bs with
  | nil => simp [bytesToHex]
  | cons b r ih =>
    intro c hc
    simp only [bytesToHex, hexOfByte, List.cons_append, List.nil_append,
      List.mem_cons] at hc
    rcases hc with rfl | rfl | hc
    · exact hexDigit_mem _ (by omega)
    · exact hexDigit_mem _ (by omega)
    · exact ih c hc

/-- C2: the signing string is the six fields in order, upper-cased method
first, joined by single newlines with no trailing newline, and the body
hash line consists of lowercase hex digits. -/
theorem signing_string_shape (method url queryString body : Str)
    (timestamp : Nat) (nonce : Str) :
    constructSigningString method url queryString body timestamp nonce =
      toUpperStr method ++ str "\n" ++ cleanUrl url ++ str "\n" ++
      queryString ++ str "\n" ++ sha256hex body ++ str "\n" ++
      natStr timestamp ++ str "\n" ++ nonce ∧
    (∀ c ∈ sha256hex body, c ∈ str "0123456789abcdef") := by
  constructor
  · simp [constructSigningString, List.intercalate]
  · exact bytesToHex_mem _

theorem cleanUrlLoop_no_trailing (fuel : Nat) :
    ∀ s : Str, s.length ≤ fuel →
      endsWithChar (cleanUrlLoop fuel s) '/' = false ∧
      endsWithChar (cleanUrlLoop fuel s) '?' = false := by
  induction fuel with
  | zero =>
    intro s hs
    have : s = [] := List.length_eq_zero.mp (Nat.le_zero.mp hs)
    subst this
    exact ⟨rfl, rfl⟩
  | succ k ih =>
    intro s hs
    unfold cleanUrlLoop
    by_cases hc : (endsWithChar s '/' || endsWithChar s '?') = true
    · simp only [hc, reduceIte]
      have hne : s ≠ [] := by
        intro h0
        subst h0
        simp [endsWithChar] at hc
      have : s.dropLast.length ≤ k := by
        have := List.length_dropLast s
        have hpos : 0 < s.length := List.length_pos.mpr hne
        omega
      exact ih s.dropLast this
    · simp only [hc, reduceIte]
      simp only [Bool.or_eq_true] at hc
      push_neg at hc
      exact ⟨Bool.eq_false_iff.mpr hc.1, Bool.eq_false_iff.mpr hc.2⟩

theorem cleanUrlLoop_decompose (fuel : Nat) :
    ∀ s : Str, ∃ suffix : Str, s = cleanUrlLoop fuel s ++ suffix ∧
      ∀ c ∈ suffix, c = '/' ∨ c = '?' := by
  induction fuel with
  | zero =>
    intro s
    exact ⟨[], by simp [cleanUrlLoop], by simp⟩
  | succ k ih =>
    intro s
    unfold cleanUrlLoop
    by_cases hc : (endsWithChar s '/' || endsWithChar s '?') = true
    · simp only [hc, reduceIte]
      have hne : s ≠ [] := by
        intro h0
        subst h0
        simp [endsWithChar] at hc
      obtain ⟨suffix, hdec, hmem⟩ := ih s.dropLast
      refine ⟨suffix ++ [s.getLast hne], ?_, ?_⟩
      · conv_lhs => rw [← List.dropLast_append_getLast hne]
        rw [← List.append_assoc, ← hdec]
      · intro c hcm
        rcases List.mem_append.mp hcm with h | h
        · exact hmem c h
        · have hcl : c = s.getLast hne := by simpa using h
          subst hcl
          simp only [Bool.or_eq_true, endsWithChar,
            List.getLast?_eq_getLast _ hne, Option.some_inj] at hc
          rcases hc with h | h
          · left; exact of_decide_eq_true h
          · right; exact of_decide_eq_true h
    · simp only [hc, reduceIte]
      exact ⟨[], by simp, by simp⟩

theorem cleanUrlLoop_fixed (s : Str)
    (h1 : endsWithChar s '/' = false) (h2 : endsWithChar s '?' = false) :
    ∀ fuel, cleanUrlLoop fuel s = s := by
  intro fuel
  cases fuel with
  | zero => rfl
  | succ k => simp [cleanUrlLoop, h1, h2]

/-- C4: the url trim strips trailing slash and question-mark characters
until none remain, touches nothing else, is idempotent, and the two
example urls produce byte-identical signing strings. -/
theorem url_trim_props :
    (∀ u : Str, cleanUrl (cleanUrl u) = cleanUrl u) ∧
    (∀ u : Str, ∃ suffix : Str, u = cleanUrl u ++ suffix ∧
      (∀ c ∈ suffix, c = '/' ∨ c = '?') ∧
      endsWithChar (cleanUrl u) '/' = false ∧
      endsWithChar (cleanUrl u) '?' = false) ∧
    (∀ method queryString body nonce (timestamp : Nat),
      constructSigningString method (str "https://h/path///???") queryString
        body timestamp nonce =
      constructSigningString method (str "https://h/path") queryString
        body timestamp nonce) := by
  refine ⟨?_, ?_, ?_⟩
  · intro u
    obtain ⟨h1, h2⟩ := cleanUrlLoop_no_trailing u.length u (Nat.le_refl _)
    exact cleanUrlLoop_fixed _ h1 h2 _
  · intro u
    obtain ⟨suffix, hdec, hmem⟩ := cleanUrlLoop_decompose u.length u
    obtain ⟨h1, h2⟩ := cleanUrlLoop_no_trailing u.length u (Nat.le_refl _)
    exact ⟨suffix, hdec, hmem, h1, h2⟩
  · intro method queryString body nonce timestamp
    have hurl : cleanUrl (str "https://h/path///???") =
        cleanUrl (str "https://h/path") := by decide
    simp [constructSigningString, hurl]

/-! ## Query canonicalization (ApiClient.buildQueryString) -/

/-- A query parameter value: string, number, boolean or undefined.
Numbers are modelled as integers (every value appearing in the claims
and the spec examples is integral). -/
inductive QVal where
  | s (v : Str)
  | n (v : Int)
  | b (v : Bool)
  | undef

def QVal.isUndef : QVal → Bool
  | .undef => true
  | _ => false

/-- String(value) for the defined query values. -/
def qValString : QVal → Str
  | .s v => v
  | .n v => (toString v).data
  | .b true => str "true"
  | .b false => str "false"
  | .undef => str "undefined"

/-- JS string comparison, code unit by code unit. -/
def strLtB : Str → Str → Bool
  | _, [] => false
  | [], _ :: _ => true
  | a :: as, b :: bs =>
      if charCode a < charCode b then true
      else if charCode b < charCode a then false
      else strLtB as bs

theorem strLtB_asymm : ∀ a b : Str, strLtB a b = true → strLtB b a = true → False
  | [], [], h1, _ => by simp [strLtB] at h1
  | [], _ :: _, _, h2 => by simp [strLtB] at h2
  | _ :: _, [], h1, _ => by simp [strLtB] at h1
  | a :: as, b :: bs, h1, h2 => by
    simp only [strLtB] at h1 h2
    by_cases hab : charCode a < charCode b
    · rw [if_neg (by omega), if_pos hab] at h2
      exact absurd h2 (by simp)
    · rw [if_neg hab] at h1
      by_cases hba : charCode b < charCode a
      · rw [if_pos hba] at h1
        exact absurd h1 (by simp)
      · rw [if_neg hba] at h1
        rw [if_neg hba, if_neg hab] at h2
        exact strLtB_asymm as bs h1 h2

theorem strLtB_connex :
    ∀ a b : Str, strLtB a b = false → strLtB b a = false → a = b
  | [], [], _, _ => rfl
  | [], _ :: _, h1, _ => by simp [strLtB] at h1
  | _ :: _, [], _, h2 => by simp [strLtB] at h2
  | a :: as, b :: bs, h1, h2 => by
    simp only [strLtB] at h1 h2
    have hab : ¬ charCode a < charCode b := by
      intro h
      rw [if_pos h] at h1
      exact absurd h1 (by simp)
    have hba : ¬ charCode b < charCode a := by
      intro h
      rw [if_pos h] at h2
      exact absurd h2 (by simp)
    rw [if_neg hab, if_neg hba] at h1
    rw [if_neg hba, if_neg hab] at h2
    have hch : a = b := Char.ext (UInt32.toNat.inj (by omega : charCode a = charCode b))
    rw [hch, strLtB_connex as bs h1 h2]

theorem strLtB_trans :
    ∀ a b c : Str, strLtB a b = true → strLtB b c = true → strLtB a c = true
  | _, b, [], _, h2 => by simp [strLtB] at h2
  | [], [], _ :: _, h1, _ => by simp [strLtB] at h1
  | [], _ :: _, _ :: _, _, _ => rfl
  | _ :: _, [], _ :: _, h1, _ => by simp [strLtB] at h1
  | a :: as, b :: bs, c :: cs, h1, h2 => by
    simp only [strLtB] at h1 h2 ⊢
    by_cases hab : charCode a < charCode b
    · by_cases hcb : charCode c < charCode b
      · rw [if_neg (by omega), if_pos (by omega)] at h2
        exact absurd h2 (by simp)
      · by_cases hbc : charCode b < charCode c
        · rw [if_pos (by omega)]
        · rw [if_pos (by omega)]
    · rw [if_neg hab] at h1
      by_cases hba : charCode b < charCode a
      · rw [if_pos hba] at h1
        exact absurd h1 (by simp)
      · rw [if_neg hba] at h1
        by_cases hbc : charCode b < charCode c
        · rw [if_pos (by omega)]
        · rw [if_neg hbc] at h2
          by_cases hcb : charCode c < charCode b
          · rw [if_pos hcb] at h2
            exact absurd h2 (by simp)
          · rw [if_neg hcb] at h2
            rw [if_neg (by omega), if_neg (by omega)]
            exact strLtB_trans as bs cs h1 h2

abbrev QEntry := Str × QVal

/-- The sort comparator of buildQueryString, (a < b ? -1 : a > b ? 1 : 0),
as the non-strict key order it induces on entries. -/
def entryLe (a b : QEntry) : Prop := strLtB b.1 a.1 = false

instance : DecidableRel entryLe := fun a b =>
  instDecidableEqBool (strLtB b.1 a.1) false

instance : IsTotal QEntry entryLe := ⟨fun a b => by
  unfold entryLe
  cases hx : strLtB b.1 a.1
  · exact Or.inl rfl
  · cases hy : strLtB a.1 b.1
    · exact Or.inr rfl
    · exact (strLtB_asymm _ _ hy hx).elim⟩

instance : IsTrans QEntry entryLe := ⟨fun a b c hab hbc => by
  unfold entryLe at hab hbc ⊢
  cases hx : strLtB c.1 a.1
  · rfl
  · cases hy : strLtB a.1 b.1
    · rw [strLtB_connex a.1 b.1 hy hab] at hx
      rw [hx] at hbc
      exact absurd hbc (by simp)
    · rw [strLtB_trans c.1 a.1 b.1 hx hy] at hbc
      exact absurd hbc (by simp)⟩

/-- Uppercase hex digit used by percent-encoding. -/
def hexDigitUpper (n : Nat) : Char := (str "0123456789ABCDEF").getD n 'X'

/-- Bytes that x-www-form-urlencoded leaves unescaped. -/
def formSafeByte (b : Nat) : Bool :=
  b = 42 || b = 45 || b = 46 || b = 95 ||
  (48 ≤ b && b ≤ 57) || (65 ≤ b && b ≤ 90) || (97 ≤ b && b ≤ 122)

def formEncodeByte (b : Nat) : Str :=
  if b = 32 then ['+']
  else if formSafeByte b then [Char.ofNat b]
  else ['%', hexDigitUpper (b / 16 % 16), hexDigitUpper (b % 16)]

def formEncodeBytes : List Nat → Str
  | [] => []
  | b :: r => formEncodeByte b ++ formEncodeBytes r

/-- URLSearchParams serialization of one string. -/
def formEncode (s : Str) : Str := formEncodeBytes (utf8Encode s)

/-- ApiClient.buildQueryString: drop undefined values, sort entries by
key with the three-way string comparator, serialize with URLSearchParams
(percent-encoding, "k=v" joined by ampersands). -/
def buildQueryString (params : Option (List QEntry)) : Str :=
  match params with
  | none => []
  | some ps =>
      let entries := ps.filter (fun e => !e.2.isUndef)
      let sorted := List.insertionSort entryLe entries
      List.intercalate (str "&")
        (sorted.map (fun e => formEncode e.1 ++ ['='] ++ formEncode (qValString e.2)))

example :
    buildQueryString (some [(str "page", QVal.n 2), (str "owner_id", QVal.s (str "u1"))]) =
    str "owner_id=u1&page=2" := by decide

theorem sorted_entries_strict (l : List QEntry)
    (hnd : (l.map Prod.fst).Nodup) (hs : l.Sorted entryLe) :
    l.Pairwise (fun a b : QEntry => strLtB a.1 b.1 = true) := by
  induction l with
  | nil => exact List.Pairwise.nil
  | cons e rest ih =>
    rw [List.map_cons, List.nodup_cons] at hnd
    rw [List.sorted_cons] at hs
    refine List.Pairwise.cons ?_ (ih hnd.2 hs.2)
    intro b hb
    have hle := hs.1 b hb
    have hneq : e.1 ≠ b.1 := by
      intro hEq
      exact hnd.1 (hEq ▸ List.mem_map_of_mem Prod.fst hb)
    cases hx : strLtB e.1 b.1
    · exact absurd (strLtB_connex _ _ hx hle) hneq
    · rfl

theorem sorted_entries_unique (l1 l2 : List QEntry) (hp : l1.Perm l2)
    (hnd : (l1.map Prod.fst).Nodup)
    (h1 : l1.Sorted entryLe) (h2 : l2.Sorted entryLe) : l1 = l2 := by
  have hnd2 : (l2.map Prod.fst).Nodup := ((hp.map Prod.fst).nodup_iff).mp hnd
  haveI : IsAntisymm QEntry (fun a b : QEntry => strLtB a.1 b.1 = true) :=
    ⟨fun a b hab hba => (strLtB_asymm _ _ hab hba).elim⟩
  exact List.eq_of_perm_of_sorted hp
    (sorted_entries_strict _ hnd h1) (sorted_entries_strict _ hnd2 h2)

/-- C3: the canonical query string drops undefined entries, is invariant
under reordering of the input entries (unique keys), and sorts the example
mapping to owner_id=u1&page=2 in either insertion order. -/
theorem query_canonicalization :
    (∀ ps1 ps2 : List QEntry, ps1.Perm ps2 → (ps1.map Prod.fst).Nodup →
      buildQueryString (some ps1) = buildQueryString (some ps2)) ∧
    (∀ (ps : List QEntry) (k : Str),
      buildQueryString (some (ps ++ [(k, QVal.undef)])) =
        buildQueryString (some ps)) ∧
    buildQueryString
      (some [(str "owner_id", QVal.s (str "u1")), (str "page", QVal.n 2)]) =
      str "owner_id=u1&page=2" ∧
    buildQueryString
      (some [(str "page", QVal.n 2), (str "owner_id", QVal.s (str "u1"))]) =
      str "owner_id=u1&page=2" := by
  refine ⟨?_, ?_, ?_, ?_⟩
  · intro ps1 ps2 hp hnd
    simp only [buildQueryString]
    have hpf : (ps1.filter (fun e => !e.2.isUndef)).Perm
        (ps2.filter (fun e => !e.2.isUndef)) := hp.filter _
    have hndf : ((ps1.filter (fun e => !e.2.isUndef)).map Prod.fst).Nodup :=
      List.Nodup.sublist ((ps1.filter_sublist).map Prod.fst) hnd
    have hperm : (List.insertionSort entryLe
          (ps1.filter (fun e => !e.2.isUndef))).Perm
        (List.insertionSort entryLe (ps2.filter (fun e => !e.2.isUndef))) :=
      (List.perm_insertionSort entryLe _).trans
        (hpf.trans (List.perm_insertionSort entryLe _).symm)
    have hnds :
        ((List.insertionSort entryLe
          (ps1.filter (fun e => !e.2.isUndef))).map Prod.fst).Nodup :=
      (((List.perm_insertionSort entryLe _).map Prod.fst).nodup_iff).mpr hndf
    rw [sorted_entries_unique _ _ hperm hnds
      (List.sorted_insertionSort entryLe _) (List.sorted_insertionSort entryLe _)]
  · intro ps k
    simp [buildQueryString, List.filter_append, QVal.isUndef]
  · decide
  · decide

/-! ## JSON values (request bodies and JSON.parse) -/

/-- A JSON value.  Numbers are modelled as integers: the fractional and
exponent forms play no role in any claim. -/
inductive JsValue where
  | null
  | bool (b : Bool)
  | num (n : Int)
  | str (s : Str)
  | arr (items : List JsValue)
  | obj (fields : List (Str × JsValue))

def isJsonWs (c : Char) : Bool :=
  c = ' ' || c = Char.ofNat 9 || c = Char.ofNat 10 || c = Char.ofNat 13

def jsonEscapeChar (c : Char) : Str :=
  if c = '"' then ['\\', '"']
  else if c = '\\' then ['\\', '\\']
  else if c = Char.ofNat 10 then ['\\', 'n']
  else if c = Char.ofNat 13 then ['\\', 'r']
  else if c = Char.ofNat 9 then ['\\', 't']
  else [c]

def jsonEscape : Str → Str
  | [] => []
  | c :: r => jsonEscapeChar c ++ jsonEscape r

def jsonQuote (s : Str) : Str := '"' :: jsonEscape s ++ ['"']

mutual

/-- JSON.stringify. -/
def jsonStringify : JsValue → Str
  | .null => str "null"
  | .bool true => str "true"
  | .bool false => str "false"
  | .num n => (toString n).data
  | .str s => jsonQuote s
  | .arr items => '[' :: List.intercalate [','] (stringifyItems items) ++ [']']
  | .obj fields =>
      Char.ofNat 123 :: List.intercalate [','] (stringifyFields fields) ++
        [Char.ofNat 125]

def stringifyItems : List JsValue → List Str
  | [] => []
  | v :: vs => jsonStringify v :: stringifyItems vs

def stringifyFields : List (Str × JsValue) → List Str
  | [] => []
  | f :: fs => (jsonQuote f.1 ++ [':'] ++ jsonStringify f.2) :: stringifyFields fs

end

/-- Serialization of the request body in ApiClient.request: undefined and
null serialize to the empty string, everything else to its JSON text. -/
def bodyStringOf : Option JsValue → Str
  | none => []
  | some .null => []
  | some v => jsonStringify v

/-- The body of a JSON string literal, after the opening quote; returns
the decoded content and the remainder after the closing quote. -/
def parseStringBody : Str → Option (Str × Str)
  | [] => none
  | c :: rest =>
      if c = '"' then some ([], rest)
      else if c = '\\' then
        match rest with
        | [] => none
        | e :: rest2 =>
            let esc : Option Char :=
              if e = '"' then some '"'
              else if e = '\\' then some '\\'
              else if e = '/' then some '/'
              else if e = 'n' then some (Char.ofNat 10)
              else if e = 't' then some (Char.ofNat 9)
              else if e = 'r' then some (Char.ofNat 13)
              else if e = 'b' then some (Char.ofNat 8)
              else if e = 'f' then some (Char.ofNat 12)
              else none
            match esc with
            | none => none
            | some ch =>
                match parseStringBody rest2 with
                | some (content, r) => some (ch :: content, r)
                | none => none
      else if charCode c < 32 then none
      else
        match parseStringBody rest with
        | some (content, r) => some (c :: content, r)
        | none => none

def isDigitChar (c : Char) : Bool := 48 ≤ charCode c && charCode c ≤ 57

def digitsVal (ds : Str) : Nat :=
  ds.foldl (fun acc c => acc * 10 + (charCode c - 48)) 0

def parseNatNum (s : Str) : Option (Nat × Str) :=
  let ds := s.takeWhile isDigitChar
  if ds = [] then none else some (digitsVal ds, s.drop ds.length)

def parseNumber (s : Str) : Option (Int × Str) :=
  match s with
  | '-' :: rest => (parseNatNum rest).map (fun p => (-(p.1 : Int), p.2))
  | _ => (parseNatNum s).map (fun p => ((p.1 : Int), p.2))

def skipWs (s : Str) : Str := s.dropWhile isJsonWs

mutual

/-- Recursive-descent JSON parser (the model of JSON.parse); the fuel
bounds recursion and exceeds any input of length below the fuel. -/
def parseValue : Nat → Str → Option (JsValue × Str)
  | 0, _ => none
  | fuel + 1, s0 =>
    let s := skipWs s0
    match s with
    | [] => none
    | c :: rest =>
        if c = '"' then (parseStringBody rest).map (fun p => (.str p.1, p.2))
        else if c = Char.ofNat 123 then parseObjFields fuel rest
        else if c = '[' then parseArrItems fuel rest
        else if (str "null").isPrefixOf s then some (.null, s.drop 4)
        else if (str "true").isPrefixOf s then some (.bool true, s.drop 4)
        else if (str "false").isPrefixOf s then some (.bool false, s.drop 5)
        else (parseNumber s).map (fun p => (.num p.1, p.2))

/-- Items of an array, positioned right after "[" or ",". -/
def parseArrItems : Nat → Str → Option (JsValue × Str)
  | 0, _ => none
  | fuel + 1, s0 =>
    match skipWs s0 with
    | ']' :: rest => some (.arr [], rest)
    | s =>
        match parseValue fuel s with
        | none => none
        | some (v, r1) =>
            match skipWs r1 with
            | ',' :: r2 =>
                match parseArrItems fuel r2 with
                | some (.arr vs, r) => some (.arr (v :: vs), r)
                | _ => none
            | ']' :: r2 => some (.arr [v], r2)
            | _ => none

/-- Fields of an object, positioned right after the opening brace or ",". -/
def parseObjFields : Nat → Str → Option (JsValue × Str)
  | 0, _ => none
  | fuel + 1, s0 =>
    match skipWs s0 with
    | c :: rest =>
        if c = Char.ofNat 125 then some (.obj [], rest)
        else if c = '"' then
          match parseStringBody rest with
          | none => none
          | some (key, r1) =>
              match skipWs r1 with
              | ':' :: r2 =>
                  match parseValue fuel r2 with
                  | none => none
                  | some (v, r3) =>
                      match skipWs r3 with
                      | ',' :: r4 =>
                          match parseObjFields fuel r4 with
                          | some (.obj fs, r) => some (.obj ((key, v) :: fs), r)
                          | _ => none
                      | c2 :: r4 =>
                          if c2 = Char.ofNat 125 then some (.obj [(key, v)], r4)
                          else none
                      | _ => none
              | _ => none
        else none
    | [] => none

end

/-- JSON.parse modelled as a total function: none stands for the thrown
SyntaxError on invalid input. -/
def jsonParse (s : Str) : Option JsValue :=
  match parseValue (s.length + 1) s with
  | some (v, rest) => if skipWs rest = [] then some v else none
  | none => none

example : jsonParse (str "\x7b\"a\": [1, true, \"x\"], \"b\": null\x7d") =
    some (.obj [(str "a", .arr [.num 1, .bool true, .str (str "x")]),
                (str "b", .null)]) := rfl

example : jsonParse (str "not json") = none := rfl

example : jsonStringify (.obj [(str "a", .arr [.num (-2), .null])]) =
    str "\x7b\"a\":[-2,null]\x7d" := rfl

/-! ## Response decoding (ApiClient.decodeResponse) -/

inductive ApiError where
  | invalidSecret
  | keyCreate
  | unsupportedCharset (label : Str)
  | network (msg : Str)

def asciiLower (c : Char) : Char :=
  if 65 ≤ charCode c && charCode c ≤ 90 then Char.ofNat (charCode c + 32) else c

def lowerStr (s : Str) : Str := s.map asciiLower

/-- Headers.get: case-insensitive header lookup. -/
def headersGet (headers : List (Str × Str)) (name : Str) : Option Str :=
  (headers.find? (fun h => lowerStr h.1 == lowerStr name)).map Prod.snd

/-- First match of the pattern charset=([^;]+) scanned case-insensitively:
at each position try the literal "charset=" followed by at least one
character other than a semicolon; on failure advance one character. -/
def findCharset : Str → Option Str
  | [] => none
  | c :: rest =>
      if lowerStr (List.take 8 (c :: rest)) = str "charset=" then
        let cap := (List.drop 8 (c :: rest)).takeWhile (fun ch => ch != ';')
        if cap = [] then findCharset rest else some cap
      else findCharset rest

def isJsWsChar (c : Char) : Bool :=
  c = ' ' || c = Char.ofNat 9 || c = Char.ofNat 10 || c = Char.ofNat 13 ||
  c = Char.ofNat 11 || c = Char.ofNat 12

/-- String.trim. -/
def jsTrim (s : Str) : Str :=
  ((s.dropWhile isJsWsChar).reverse.dropWhile isJsWsChar).reverse

/-- The encodings exercised by the spec; the TextDecoder label table is
restricted to their WHATWG labels. -/
inductive Encoding where
  | utf8
  | latin1
deriving DecidableEq

def textDecoderLabels : List (Str × Encoding) :=
  [(str "utf-8", .utf8), (str "utf8", .utf8), (str "unicode-1-1-utf-8", .utf8),
   (str "iso-8859-1", .latin1), (str "iso8859-1", .latin1), (str "latin1", .latin1),
   (str "l1", .latin1), (str "windows-1252", .latin1), (str "ascii", .latin1)]

/-- new TextDecoder(label): none models the thrown RangeError for a label
naming no supported encoding. -/
def textDecoderNew (label : Str) : Option Encoding :=
  (textDecoderLabels.find? (fun e => e.1 == lowerStr label)).map Prod.snd

def replacementChar : Char := Char.ofNat 65533

/-- Lenient UTF-8 decoding (TextDecoder default, response.text()); the
fuel only bounds the number of decoded units by the byte count. -/
def utf8DecodeFuel : Nat → List Nat → Str
  | 0, _ => []
  | _ + 1, [] => []
  | fuel + 1, b1 :: r1 =>
      if b1 < 128 then Char.ofNat b1 :: utf8DecodeFuel fuel r1
      else if 194 ≤ b1 && b1 ≤ 223 then
        match r1 with
        | b2 :: r2 =>
            if 128 ≤ b2 && b2 < 192 then
              Char.ofNat ((b1 - 192) * 64 + (b2 - 128)) :: utf8DecodeFuel fuel r2
            else replacementChar :: utf8DecodeFuel fuel r1
        | [] => [replacementChar]
      else if 224 ≤ b1 && b1 ≤ 239 then
        match r1 with
        | b2 :: b3 :: r3 =>
            if (128 ≤ b2 && b2 < 192) && (128 ≤ b3 && b3 < 192) then
              Char.ofNat ((b1 - 224) * 4096 + (b2 - 128) * 64 + (b3 - 128)) ::
                utf8DecodeFuel fuel r3
            else replacementChar :: utf8DecodeFuel fuel r1
        | _ => [replacementChar]
      else if 240 ≤ b1 && b1 ≤ 244 then
        match r1 with
        | b2 :: b3 :: b4 :: r4 =>
            if (128 ≤ b2 && b2 < 192) && (128 ≤ b3 && b3 < 192) &&
               (128 ≤ b4 && b4 < 192) then
              Char.ofNat ((b1 - 240) * 262144 + (b2 - 128) * 4096 +
                (b3 - 128) * 64 + (b4 - 128)) :: utf8DecodeFuel fuel r4
            else replacementChar :: utf8DecodeFuel fuel r1
        | _ => [replacementChar]
      else replacementChar :: utf8DecodeFuel fuel r1

def utf8Decode (bs : List Nat) : Str := utf8DecodeFuel bs.length bs

def decodeBytes : Encoding → List Nat → Str
  | .utf8, bs => utf8Decode bs
  | .latin1, bs => bs.map Char.ofNat

/-- A raw fetch response: status, headers and undecoded body bytes. -/
structure ResponseR where
  status : Nat
  headers : List (Str × Str)
  bodyBytes : List Nat

/-- ApiClient.decodeResponse: pick the decoder from the content-type
charset parameter when one is declared, utf-8 otherwise.  The error case
models the RangeError thrown by the TextDecoder constructor. -/
def decodeResponse (response : ResponseR) : Except ApiError Str :=
  let contentType := (headersGet response.headers (str "content-type")).getD []
  match findCharset contentType with
  | some cap =>
      match textDecoderNew (jsTrim cap) with
      | some enc => .ok (decodeBytes enc response.bodyBytes)
      | none => .error (.unsupportedCharset (jsTrim cap))
  | none => .ok (utf8Decode response.bodyBytes)

example : utf8Decode [195, 169] = [Char.ofNat 233] := rfl
example : decodeBytes .latin1 [195, 169] = [Char.ofNat 195, Char.ofNat 169] := rfl

/-! ## Signer (AuthSigner.sign, generateAuthorizationHeader) -/

structure AuthSignerM where
  accessKeyId : Str
  accessSecret : Str

section Signer

variable {PrivKey : Type}
variable (createPrivateKey : List Nat → Option PrivKey)
variable (edSign : PrivKey → List Nat → List Nat)

/-- AuthSigner.sign: reject a secret without the SK_ marker, decode the
rest as url-safe base64 into PKCS8 DER bytes, build the private key and
produce the url-safe unpadded base64 of the Ed25519 signature over the
UTF-8 bytes of the signing string.  createPrivateKey and edSign are the
abstract Node crypto primitives. -/
def signerSign (signer : AuthSignerM) (signingString : Str) :
    Except ApiError Str :=
  if !(str "SK_").isPrefixOf signer.accessSecret then .error .invalidSecret
  else
    match createPrivateKey (base64UrlToBuffer (signer.accessSecret.drop 3)) with
    | none => .error .keyCreate
    | some privateKey =>
        .ok (toBase64Url (edSign privateKey (utf8Encode signingString)))

/-- AuthSigner.generateAuthorizationHeader.  The wall clock read and the
16 random nonce bytes are explicit inputs; the source computes
nonce = toBase64Url(randomBytes(16)) and interpolates the template
string from the pieces below. -/
def generateAuthorizationHeader (signer : AuthSignerM)
    (method url queryString body : Str)
    (timestamp : Nat) (randomBytes : List Nat) : Except ApiError Str :=
  let nonce := toBase64Url randomBytes
  let signingString :=
    constructSigningString method url queryString body timestamp nonce
  match signerSign createPrivateKey edSign signer signingString with
  | .error e => .error e
  | .ok signature =>
      .ok (str "LtBase " ++ signer.accessKeyId ++ [':'] ++ signature ++ [':'] ++
        natStr timestamp ++ [':'] ++ nonce)

end Signer

/-! ## Transport client (ApiClient.request) -/

/-- The parts of a WHATWG URL the transport reads after resolving the
path against the base url; resolveUrl below abstracts new URL(path, base). -/
structure UrlParts where
  origin : Str
  pathname : Str

structure ApiClientM where
  baseUrl : Str
  signer : AuthSignerM

/-- What reaches fetch: url, method and headers as built by request. -/
structure SentRequest where
  url : Str
  method : Str
  authorization : Str
  contentType : Str
  acceptEncoding : Str
  body : Option Str

structure ApiResponseM where
  status : Nat
  body : Str
  headers : List (Str × Str)

def ApiResponseM.isSuccess (r : ApiResponseM) : Bool :=
  200 ≤ r.status && r.status < 300

/-- ApiResponse.json: JSON.parse wrapped in try/catch, null on failure. -/
def ApiResponseM.json (r : ApiResponseM) : Option JsValue := jsonParse r.body

section Transport

variable {PrivKey : Type}
variable (createPrivateKey : List Nat → Option PrivKey)
variable (edSign : PrivKey → List Nat → List Nat)
variable (resolveUrl : Str → Str → UrlParts)

/-- ApiClient.request.  Effects are explicit: timestamp and randomBytes
feed the signer, fetchImpl is the injected fetch, and the second
component lists every request that was actually handed to fetch. -/
def request (client : ApiClientM) (method path : Str)
    (queryParams : Option (List QEntry)) (body : Option JsValue)
    (timestamp : Nat) (randomBytes : List Nat)
    (fetchImpl : SentRequest → ResponseR) :
    Except ApiError ApiResponseM × List SentRequest :=
  let url := resolveUrl path client.baseUrl
  let sortedQueryString := buildQueryString queryParams
  let fullUrl := url.origin ++ url.pathname ++
    (if sortedQueryString = [] then [] else '?' :: sortedQueryString)
  let urlWithoutQuery := url.origin ++ url.pathname
  let bodyString := bodyStringOf body
  match generateAuthorizationHeader createPrivateKey edSign client.signer
      method urlWithoutQuery sortedQueryString bodyString timestamp randomBytes with
  | .error e => (.error e, [])
  | .ok authHeader =>
      let sent : SentRequest :=
        { url := fullUrl, method := method, authorization := authHeader,
          contentType := str "application/json; charset=UTF-8",
          acceptEncoding := str "gzip",
          body := if bodyString = [] then none else some bodyString }
      let response := fetchImpl sent
      match decodeResponse response with
      | .error e => (.error e, [sent])
      | .ok text =>
          (.ok { status := response.status, body := text,
                 headers := response.headers }, [sent])

end Transport

/-- C1: for every credential and request input, the authorization header
is exactly LtBase key:signature:timestamp:nonce, where the signature is
the unpadded url-safe base64 of the Ed25519 signature over the UTF-8
bytes of the canonical string built from the same timestamp and nonce
that appear in the header. -/
theorem auth_header_exact {PrivKey : Type}
    (createPrivateKey : List Nat → Option PrivKey)
    (edSign : PrivKey → List Nat → List Nat)
    (signer : AuthSignerM) (method url queryString body : Str)
    (timestamp : Nat) (randomBytes : List Nat) (key : PrivKey)
    (hpre : (str "SK_").isPrefixOf signer.accessSecret = true)
    (hkey : createPrivateKey (base64UrlToBuffer (signer.accessSecret.drop 3)) =
      some key) :
    generateAuthorizationHeader createPrivateKey edSign signer method url
      queryString body timestamp randomBytes =
    .ok (str "LtBase " ++ signer.accessKeyId ++ [':'] ++
      toBase64Url (edSign key (utf8Encode (constructSigningString method url
        queryString body timestamp (toBase64Url randomBytes)))) ++ [':'] ++
      natStr timestamp ++ [':'] ++ toBase64Url randomBytes) := by
  simp [generateAuthorizationHeader, signerSign, hpre, hkey]

/-- Witness for C1 with the crypto primitives instantiated concretely. -/
theorem auth_header_exact_witness :
    generateAuthorizationHeader (fun _ => some ()) (fun _ _ => [1, 2, 3])
      ⟨str "AK", str "SK_"⟩ (str "get") (str "u") [] [] 0 [] =
    .ok (str "LtBase " ++ str "AK" ++ [':'] ++ toBase64Url [1, 2, 3] ++ [':'] ++
      natStr 0 ++ [':'] ++ toBase64Url []) :=
  auth_header_exact (fun _ => some ()) (fun _ _ => [1, 2, 3])
    ⟨str "AK", str "SK_"⟩ (str "get") (str "u") [] [] 0 [] ()
    (by decide) rfl

/-- C6: a secret without the SK_ marker makes every request fail with the
configuration error from the signer, and nothing is handed to fetch. -/
theorem bad_secret_fails_before_fetch {PrivKey : Type}
    (createPrivateKey : List Nat → Option PrivKey)
    (edSign : PrivKey → List Nat → List Nat)
    (resolveUrl : Str → Str → UrlParts)
    (client : ApiClientM) (method path : Str)
    (queryParams : Option (List QEntry)) (body : Option JsValue)
    (timestamp : Nat) (randomBytes : List Nat)
    (fetchImpl : SentRequest → ResponseR)
    (hbad : (str "SK_").isPrefixOf client.signer.accessSecret = false) :
    request createPrivateKey edSign resolveUrl client method path queryParams
      body timestamp randomBytes fetchImpl =
      (.error .invalidSecret, []) := by
  simp [request, generateAuthorizationHeader, signerSign, hbad]

/-- Witness for C6: a concrete client with secret BAD never reaches fetch. -/
theorem bad_secret_fails_before_fetch_witness :
    @request Unit (fun _ => some ()) (fun _ _ => [])
      (fun _ _ => ⟨[], []⟩) ⟨str "https://h", str "AK", str "BAD"⟩
      (str "GET") (str "/p") none none 0 []
      (fun _ => ⟨200, [], []⟩) = (.error .invalidSecret, []) :=
  bad_secret_fails_before_fetch (fun _ => some ()) (fun _ _ => [])
    (fun _ _ => ⟨[], []⟩) ⟨str "https://h", str "AK", str "BAD"⟩
    (str "GET") (str "/p") none none 0 [] (fun _ => ⟨200, [], []⟩) (by decide)

set_option maxRecDepth 8000 in
/-- C7: an absent or null body serializes to the empty string, and the
body hash line of the signing string is then the SHA-256 of the empty
string, e3b0c44298fc1c149afbf4c8996fb92427ae41e4649b934ca495991b7852b855. -/
theorem empty_body_signing :
    bodyStringOf none = [] ∧ bodyStringOf (some JsValue.null) = [] ∧
    (∀ (method url queryString : Str) (timestamp : Nat) (nonce : Str)
        (body : Option JsValue), body = none ∨ body = some JsValue.null →
      constructSigningString method url queryString (bodyStringOf body)
          timestamp nonce =
        toUpperStr method ++ str "\n" ++ cleanUrl url ++ str "\n" ++
        queryString ++ str "\n" ++
        str "e3b0c44298fc1c149afbf4c8996fb92427ae41e4649b934ca495991b7852b855" ++
        str "\n" ++ natStr timestamp ++ str "\n" ++ nonce) := by
  refine ⟨rfl, rfl, ?_⟩
  intro method url queryString timestamp nonce body hbody
  have hempty : bodyStringOf body = [] := by
    rcases hbody with rfl | rfl <;> rfl
  rw [hempty]
  have hsha : sha256hex [] =
      str "e3b0c44298fc1c149afbf4c8996fb92427ae41e4649b934ca495991b7852b855" := by
    decide
  simp [constructSigningString, List.intercalate, hsha]

/-- Witness for C7 at an absent body and concrete request fields. -/
theorem empty_body_signing_witness :
    constructSigningString (str "get") (str "https://h/p") (str "q")
      (bodyStringOf none) 5 (str "N") =
    toUpperStr (str "get") ++ str "\n" ++ cleanUrl (str "https://h/p") ++
      str "\n" ++ str "q" ++ str "\n" ++
      str "e3b0c44298fc1c149afbf4c8996fb92427ae41e4649b934ca495991b7852b855" ++
      str "\n" ++ natStr 5 ++ str "\n" ++ str "N" :=
  empty_body_signing.2.2 (str "get") (str "https://h/p") (str "q") 5 (str "N")
    none (Or.inl rfl)

set_option maxRecDepth 8000 in
/-- C8: a declared charset parameter selects the decoder for the raw
bytes, its absence selects utf-8, and charset=iso-8859-1 decodes the
bytes 195 169 as two latin-1 characters even though they are also the
valid UTF-8 encoding of one character. -/
theorem charset_decoding :
    (∀ (resp : ResponseR) (cap : Str) (enc : Encoding),
      findCharset ((headersGet resp.headers (str "content-type")).getD []) =
        some cap →
      textDecoderNew (jsTrim cap) = some enc →
      decodeResponse resp = .ok (decodeBytes enc resp.bodyBytes)) ∧
    (∀ resp : ResponseR,
      findCharset ((headersGet resp.headers (str "content-type")).getD []) =
        none →
      decodeResponse resp = .ok (utf8Decode resp.bodyBytes)) ∧
    decodeResponse ⟨200,
      [(str "content-type", str "application/json; charset=iso-8859-1")],
      [195, 169]⟩ = .ok [Char.ofNat 195, Char.ofNat 169] ∧
    utf8Decode [195, 169] = [Char.ofNat 233] := by
  refine ⟨?_, ?_, rfl, rfl⟩
  · intro resp cap enc h1 h2
    simp [decodeResponse, h1, h2]
  · intro resp h1
    simp [decodeResponse, h1]

/-- Witness for C8: one response with a charset, one without. -/
theorem charset_decoding_witness :
    decodeResponse ⟨200, [(str "Content-Type", str "text/plain; charset=UTF8")],
      [104]⟩ = .ok (decodeBytes .utf8 [104]) ∧
    decodeResponse ⟨200, [(str "content-type", str "application/json")],
      [104]⟩ = .ok (utf8Decode [104]) :=
  ⟨charset_decoding.1 ⟨200, [(str "Content-Type", str "text/plain; charset=UTF8")],
      [104]⟩ (str "UTF8") .utf8 rfl rfl,
   charset_decoding.2.1 ⟨200, [(str "content-type", str "application/json")],
      [104]⟩ rfl⟩

/-- C9: an unsupported charset label surfaces as a decoding error from
the decode step, an error distinct from the network error kind. -/
theorem unsupported_charset_error :
    (∀ (resp : ResponseR) (cap : Str),
      findCharset ((headersGet resp.headers (str "content-type")).getD []) =
        some cap →
      textDecoderNew (jsTrim cap) = none →
      decodeResponse resp = .error (.unsupportedCharset (jsTrim cap))) ∧
    (∀ label msg : Str, ApiError.unsupportedCharset label ≠ ApiError.network msg) := by
  constructor
  · intro resp cap h1 h2
    simp [decodeResponse, h1, h2]
  · intro label msg h
    exact ApiError.noConfusion h

/-- Witness for C9 with charset=klingon. -/
theorem unsupported_charset_error_witness :
    decodeResponse ⟨200,
      [(str "content-type", str "text/plain; charset=klingon")], [104]⟩ =
      .error (.unsupportedCharset (str "klingon")) ∧
    ApiError.unsupportedCharset (str "a") ≠ ApiError.network (str "b") :=
  ⟨unsupported_charset_error.1 ⟨200,
      [(str "content-type", str "text/plain; charset=klingon")], [104]⟩
      (str "klingon") rfl rfl,
   unsupported_charset_error.2 (str "a") (str "b")⟩

/-- C10: ApiResponse.json is total: it yields the parsed value exactly
when the body is valid JSON and null (none) when parsing fails, shown on
a valid and an invalid body. -/
theorem json_never_throws :
    (∀ r : ApiResponseM,
      (∃ v, jsonParse r.body = some v ∧ r.json = some v) ∨
      (jsonParse r.body = none ∧ r.json = none)) ∧
    (ApiResponseM.mk 200 (str "\x7b\"a\":1\x7d") []).json =
      some (.obj [(str "a", .num 1)]) ∧
    (ApiResponseM.mk 200 (str "not json") []).json = none := by
  refine ⟨?_, rfl, rfl⟩
  intro r
  rcases h : jsonParse r.body with _ | v
  · exact Or.inr ⟨rfl, by simp [ApiResponseM.json, h]⟩
  · exact Or.inl ⟨v, rfl, by simp [ApiResponseM.json, h]⟩

/-- Witness for C3: the two insertion orders of the example mapping give
one canonical query string. -/
theorem query_canonicalization_witness :
    buildQueryString
      (some [(str "owner_id", QVal.s (str "u1")), (str "page", QVal.n 2)]) =
    buildQueryString
      (some [(str "page", QVal.n 2), (str "owner_id", QVal.s (str "u1"))]) :=
  query_canonicalization.1 _ _ (List.Perm.swap _ _ _) (by decide)
